import Mathlib

/-!
Shallow embedding of the popup logic of the Extensions-Manager browser
extension (src/src/scripts/popup.js, class ExtensionManager).

The embedding models:
  * extension records as delivered by the platform management API;
  * the persisted set of identifiers disabled by the bulk action
    (field eidDisabledSet, serialized under a fixed key as a
    comma-joined string);
  * the sorter sortByASCII, the renderer helpers, the bulk operations
    oneKeyDisable and oneKeyRestore, the header dispatch, and the
    keyboard focus movement.

JavaScript strings are modelled as Lean String (a list of characters);
the JS Set is modelled as an insertion-ordered duplicate-free list;
the platform i18n lookup is an external collaborator and is modelled
as returning its key; localStorage is modelled as an optional stored
string. Asynchronous completion callbacks are run sequentially in
issuance order, which is the ordering assumption stated by the spec.
-/

namespace ExtMgr

/-- An icon entry of an extension record: pixel size plus URL. -/
structure Icon where
  size : Nat
  url : String
deriving DecidableEq

/-- An extension record as returned by the platform management API. -/
structure Ext where
  id : String
  name : String
  shortName : Option String
  enabled : Bool
  type : String
  icons : List Icon
deriving DecidableEq

/-- JS Set.prototype.add: appends the element if absent, keeping insertion
order. -/
def setAdd (s : List String) (x : String) : List String :=
  if x ∈ s then s else s ++ [x]

/-- JS Array.prototype.join with separator ",", on character lists. -/
def joinComma : List (List Char) → List Char
  | [] => []
  | [w] => w
  | w :: ws => w ++ ',' :: joinComma ws

/-- JS String.prototype.split with separator ",", on character lists:
splits at every comma, producing empty pieces between adjacent commas. -/
def splitComma : List Char → List (List Char)
  | [] => [[]]
  | c :: cs =>
    if c = ',' then [] :: splitComma cs
    else
      match splitComma cs with
      | [] => [[c]]
      | r :: rs => (c :: r) :: rs

/-- writeToLocal: serializes the identifier list as a comma-joined string
(the value handed to localStorage.setItem under the fixed key). -/
def writeToLocal (ids : List String) : String :=
  String.mk (joinComma (ids.map String.data))

/-- readFromLocal: parses the stored value back into an identifier list.
A missing key (none) and the empty string are both falsy in JS, so both
yield the empty list; otherwise the string is split at every comma. -/
def readFromLocal (stored : Option String) : List String :=
  match stored with
  | none => []
  | some data => if data = "" then [] else (splitComma data.data).map String.mk

/-- The in-memory set after readFromLocal adds every parsed identifier to
the set with Set.prototype.add, starting from the set init. -/
def loadIntoSet (init : List String) (stored : Option String) : List String :=
  (readFromLocal stored).foldl setAdd init

/-- chrome.i18n.getMessage is an external platform collaborator; the
embedding models the localized message for a key as the key itself. -/
def getMessage (key : String) : String := key

/-- The mutable part of the manager relevant to the bulk operations:
the disabled-by-us set (insertion-ordered), the localStorage slot under
the fixed key, and the header (h1) text content. -/
structure MgrState where
  eidDisabledSet : List String
  storage : Option String
  h1Label : String
deriving DecidableEq

/-- defSortFunction compares two records by name with
String.prototype.localeCompare under locale en-US. The platform
collation is an external collaborator, so the comparison lc is a
parameter of the embedding; a comparator result other than gt means
the first record may come first (localeCompare result not positive). -/
def jsSortLE (lc : String → String → Ordering) (prev next : Ext) : Bool :=
  !(lc prev.name next.name == Ordering.gt)

/-- sortByASCII: with the partition flag false, sort the whole list by
the name comparator; with the flag true, split into enabled and disabled
sublists (in input order), sort each, and concatenate enabled first.
JS Array.prototype.sort is modelled as a merge sort. -/
def sortByASCII (lc : String → String → Ordering) (partition : Bool)
    (list : List Ext) : List Ext :=
  if partition then
    let enabled := list.filter fun item => item.enabled
    let disabled := list.filter fun item => !item.enabled
    (enabled.mergeSort (jsSortLE lc)) ++ (disabled.mergeSort (jsSortLE lc))
  else
    list.mergeSort (jsSortLE lc)

/-- The skip test of renderExtensions: an item is dropped when it is the
hosting extension itself or its type is excluded. -/
def renderKeep (selfId : String) (excludeType : List String) (item : Ext) : Bool :=
  !(item.id == selfId) && !(excludeType.contains item.type)

/-- The records that receive a list item in renderExtensions: the sorted
list with the self record and excluded types skipped. -/
def renderedRecords (lc : String → String → Ordering) (selfId : String)
    (excludeType : List String) (partition : Bool) (list : List Ext) : List Ext :=
  (sortByASCII lc partition list).filter (renderKeep selfId excludeType)

/-- The fallback icon of renderExtensionState: the generic platform icon
URL keyed by the record identifier, with size 32. -/
def defaultIconInfo (item : Ext) : Icon :=
  { size := 32, url := "chrome://extension-icon/" ++ item.id ++ "/32/0" }

/-- One step of the icon scan of renderExtensionState: a later icon
replaces the current one when it is strictly larger and strictly below
maxIconSize. -/
def iconStep (maxIconSize : Nat) (cur icon : Icon) : Icon :=
  if cur.size < icon.size && icon.size < maxIconSize then icon else cur

/-- The icon selection of renderExtensionState: start from the default;
with a nonempty icon list take the first icon, then scan the rest with
iconStep. -/
def chooseIcon (maxIconSize : Nat) (item : Ext) : Icon :=
  match item.icons with
  | [] => defaultIconInfo item
  | firstIcon :: restIcons => restIcons.foldl (iconStep maxIconSize) firstIcon

/-- The label shown for a record: item.shortName || item.name, where the
JS or-expression falls through on a missing or empty short name. -/
def extLabel (item : Ext) : String :=
  match item.shortName with
  | none => item.name
  | some s => if s = "" then item.name else s

/-- The visual state renderExtensionState writes into a list item. -/
structure RenderedItem where
  spanText : String
  imgAlt : String
  imgSrc : String
  title : String
  dataEnabled : Bool
deriving DecidableEq

/-- renderExtensionState: fills the icon, the label (span text and image
alt), the grayscale suffix for a disabled record, the localized tooltip
and the enabled marker. -/
def renderExtensionState (maxIconSize : Nat) (item : Ext) : RenderedItem :=
  let iconInfo := chooseIcon maxIconSize item
  { spanText := extLabel item
    imgAlt := extLabel item
    imgSrc := iconInfo.url ++ (if item.enabled then "" else "?grayscale=true")
    title := getMessage (if item.enabled then "disable_extension" else "enable_extension")
    dataEnabled := item.enabled }

/-- The filter of oneKeyDisable: keep records that are not the hosting
extension, whose type is not excluded, and that are currently enabled. -/
def disableFilter (selfId : String) (excludeType : List String)
    (list : List Ext) : List Ext :=
  list.filter fun item =>
    !(item.id == selfId) && !(excludeType.contains item.type) && item.enabled

/-- tailId of oneKeyDisable: Boolean(filtered.length) && lastItem.id, a
JS value that is either false (empty filtered list) or the identifier of
the last filtered record. -/
def tailIdOf (filtered : List Ext) : Option String :=
  match filtered.getLast? with
  | none => none
  | some item => some item.id

/-- The completion callbacks of oneKeyDisable, run in issuance order:
each adds its identifier to the disabled-by-us set, and the callback
whose identifier equals tailId persists the set and flips the header
label to the one_key_restore message. -/
def runDisableCallbacks (tailId : Option String) :
    List String → MgrState → MgrState
  | [], st => st
  | id :: rest, st =>
    let st1 : MgrState := { st with eidDisabledSet := setAdd st.eidDisabledSet id }
    let st2 : MgrState :=
      if some id = tailId then
        { st1 with
          storage := some (writeToLocal st1.eidDisabledSet)
          h1Label := getMessage "one_key_restore" }
      else st1
    runDisableCallbacks tailId rest st2

/-- oneKeyDisable on a fetched list: filter, remember the tail
identifier, issue a disable request per filtered record in list order,
and run the completion callbacks (in issuance order, the ordering the
spec assumes). Returns the issued (identifier, target-enabled) requests
and the state after all callbacks. -/
def oneKeyDisable (selfId : String) (excludeType : List String)
    (list : List Ext) (st : MgrState) : List (String × Bool) × MgrState :=
  let filtered := disableFilter selfId excludeType list
  let tailId := tailIdOf filtered
  (filtered.map fun item => (item.id, false),
   runDisableCallbacks tailId (filtered.map fun item => item.id) st)

/-- The membership test of oneKeyRestore: the identifiers of records
that are not the hosting extension, whose type is not excluded, and that
are currently disabled. Records failing the test contribute the JS value
undefined to the Set, which never matches a string identifier, so they
are modelled as dropped. -/
def restoreCandidates (selfId : String) (excludeType : List String)
    (list : List Ext) : List String :=
  list.filterMap fun item =>
    if !(item.id == selfId) && !(excludeType.contains item.type) && !item.enabled then
      some item.id
    else none

/-- oneKeyRestore on a fetched list: issue an enable request for every
identifier of the disabled-by-us set (in insertion order) that is still
a restore candidate, then clear the set, persist it (now empty) and flip
the header label to the one_key_disable message. -/
def oneKeyRestore (selfId : String) (excludeType : List String)
    (list : List Ext) (st : MgrState) : List (String × Bool) × MgrState :=
  let disabledExisting := restoreCandidates selfId excludeType list
  ((st.eidDisabledSet.filter fun id => disabledExisting.contains id).map
      fun id => (id, true),
   { eidDisabledSet := []
     storage := some (writeToLocal [])
     h1Label := getMessage "one_key_disable" })

/-- The two bulk operations the header click handler can dispatch to. -/
inductive BulkOp
  | restore
  | disable
deriving DecidableEq

/-- The header click handler: a nonzero size of the disabled-by-us set
selects oneKeyRestore, otherwise oneKeyDisable. An Enter keyup on the
focused header replays a click, so keyboard activation reaches the same
dispatch. -/
def headerActivate (st : MgrState) : BulkOp :=
  if st.eidDisabledSet.length != 0 then BulkOp.restore else BulkOp.disable

/-- The keydown handler: Tab moves by +1 (-1 with Shift), ArrowDown by
+1, ArrowUp by -1; other keys do not move focus. -/
def keydownOffset (key : String) (shiftKey : Bool) : Option Int :=
  if key = "Tab" then some (if shiftKey then -1 else 1)
  else if key = "ArrowUp" then some (-1)
  else if key = "ArrowDown" then some 1
  else none

/-- focusClickableElement over the focusable sequence (header followed
by the list items) of length n: idx is the index of the currently
focused element, -1 when none is focused (Array.prototype.findIndex).
A +1 offset focuses (idx + 1) mod n; a -1 offset focuses
(max(idx, 0) - 1 + n) mod n. All dividends are nonnegative, so the JS
remainder agrees with the Euclidean remainder used here. Returns the
index of the newly focused element. -/
def focusTarget (n : Nat) (idx : Int) (offset : Int) : Option Int :=
  if offset = 1 then some ((idx + offset) % (n : Int))
  else if offset = -1 then some ((max idx 0 + offset + (n : Int)) % (n : Int))
  else none

/-- The spec statement of sortedness: consecutive records are in order
under the name comparator (a comparator result other than gt). -/
def NondecreasingBy (lc : String → String → Ordering) (l : List Ext) : Prop :=
  l.Pairwise fun a b => lc a.name b.name ≠ Ordering.gt

/-- A concrete enabled record used to instantiate the theorems. -/
def demoExtA : Ext :=
  { id := "idA", name := "Alpha", shortName := none, enabled := true
    type := "extension", icons := [] }

/-- A concrete disabled record used to instantiate the theorems. -/
def demoExtB : Ext :=
  { id := "idB", name := "Beta", shortName := some "B", enabled := false
    type := "extension", icons := [] }

/-- A concrete record whose short name is the empty string. -/
def demoExtC : Ext :=
  { id := "idC", name := "Gamma", shortName := some "", enabled := true
    type := "extension", icons := [] }

/-- A concrete starting state used to instantiate the theorems. -/
def demoState : MgrState := { eidDisabledSet := [], storage := none, h1Label := "" }

/-- A concrete state with a nonempty disabled-by-us set, one identifier
still present on the platform and one stale. -/
def demoStateFull : MgrState :=
  { eidDisabledSet := ["idB", "idGone"], storage := some "idB,idGone"
    h1Label := "one_key_restore" }

/-- An icon whose pixel size is at least the 64 pixel bound. -/
def iconBig : Icon := { size := 128, url := "big" }

/-- An icon whose pixel size is below the 64 pixel bound. -/
def iconSmall : Icon := { size := 32, url := "small" }

/-- A record whose first icon is at least 64 pixels although a smaller
icon is available. -/
def extBigFirst : Ext :=
  { id := "eBF", name := "n", shortName := none, enabled := true
    type := "extension", icons := [iconBig, iconSmall] }

/-- A record whose first icon is below 64 pixels. -/
def extSmallFirst : Ext :=
  { id := "eSF", name := "n", shortName := none, enabled := true
    type := "extension"
    icons := [{ size := 16, url := "s16" }, { size := 48, url := "s48" },
              { size := 128, url := "s128" }] }

/-- A constant comparator used to instantiate the sorter theorem. -/
def lcConst : String → String → Ordering := fun _ _ => Ordering.lt

theorem splitComma_ne_nil (cs : List Char) : splitComma cs ≠ [] := by
  induction cs with
  | nil => simp [splitComma]
  | cons c cs ih =>
    by_cases hc : c = ','
    · simp [splitComma, hc]
    · cases hr : splitComma cs with
      | nil => exact absurd hr ih
      | cons r rs => simp [splitComma, hc, hr]

theorem splitComma_word (w : List Char) (hw : ',' ∉ w) (cs : List Char)
    (r : List Char) (rs : List (List Char)) (h : splitComma cs = r :: rs) :
    splitComma (w ++ cs) = (w ++ r) :: rs := by
  induction w with
  | nil => simpa using h
  | cons c w ih =>
    have hc : c ≠ ',' := fun hcc => hw (hcc ▸ List.mem_cons_self c w)
    have hw2 : ',' ∉ w := fun hm => hw (List.mem_cons_of_mem c hm)
    have ih2 := ih hw2
    simp only [List.cons_append, splitComma, if_neg hc, List.append_eq, ih2]

theorem splitComma_joinComma (l : List (List Char))
    (h : ∀ w ∈ l, ',' ∉ w) (hne : l ≠ []) :
    splitComma (joinComma l) = l := by
  induction l with
  | nil => exact absurd rfl hne
  | cons x t ih =>
    cases t with
    | nil =>
      have hx : ',' ∉ x := h x (List.mem_cons_self x [])
      have : splitComma (x ++ []) = (x ++ []) :: [] :=
        splitComma_word x hx [] [] [] rfl
      simpa [joinComma] using this
    | cons y t2 =>
      have hx : ',' ∉ x := h x (List.mem_cons_self x (y :: t2))
      have ht : ∀ w ∈ y :: t2, ',' ∉ w := fun w hm => h w (List.mem_cons_of_mem x hm)
      have ih2 : splitComma (joinComma (y :: t2)) = y :: t2 :=
        ih ht (by simp)
      have hmid : splitComma (',' :: joinComma (y :: t2)) = [] :: y :: t2 := by
        simp [splitComma, ih2]
      have := splitComma_word x hx (',' :: joinComma (y :: t2)) [] (y :: t2) hmid
      simpa [joinComma] using this

theorem joinComma_cons_cons (a b : List Char) (t : List (List Char)) :
    joinComma (a :: b :: t) = a ++ ',' :: joinComma (b :: t) := rfl

theorem writeToLocal_ne_empty (ids : List String)
    (hne : ids ≠ []) (hne2 : ids ≠ [""]) : writeToLocal ids ≠ "" := by
  intro hcontra
  have hdata : joinComma (ids.map String.data) = [] := by
    have := congrArg String.data hcontra
    simpa [writeToLocal] using this
  cases ids with
  | nil => exact hne rfl
  | cons x t =>
    cases t with
    | nil =>
      have hx : x.data = [] := by simpa [joinComma] using hdata
      have : x = "" := String.ext (by simp [hx])
      exact hne2 (by simp [this])
    | cons y t2 =>
      rw [List.map_cons, List.map_cons, joinComma_cons_cons] at hdata
      simp at hdata

theorem mem_setAdd (s : List String) (x y : String) :
    y ∈ setAdd s x ↔ y ∈ s ∨ y = x := by
  by_cases hx : x ∈ s
  · constructor
    · intro h
      exact Or.inl (by simpa [setAdd, hx] using h)
    · rintro (h | rfl)
      · simpa [setAdd, hx] using h
      · simp [setAdd, hx]
  · simp [setAdd, hx]

theorem foldl_setAdd_nodup (l acc : List String) (h : (acc ++ l).Nodup) :
    l.foldl setAdd acc = acc ++ l := by
  induction l generalizing acc with
  | nil => simp
  | cons x t ih =>
    have hx : x ∉ acc := by
      intro hmem
      have hdisj : acc.Disjoint (x :: t) := (List.nodup_append.mp h).2.2
      exact hdisj hmem (List.mem_cons_self x t)
    have hstep : setAdd acc x = acc ++ [x] := by simp [setAdd, hx]
    have hre : acc ++ x :: t = (acc ++ [x]) ++ t := by simp
    have h2 : ((acc ++ [x]) ++ t).Nodup := by rwa [hre] at h
    calc (x :: t).foldl setAdd acc = t.foldl setAdd (setAdd acc x) := rfl
      _ = t.foldl setAdd (acc ++ [x]) := by rw [hstep]
      _ = (acc ++ [x]) ++ t := ih (acc ++ [x]) h2
      _ = acc ++ x :: t := hre.symm

theorem mk_data_map (ids : List String) :
    (ids.map String.data).map String.mk = ids := by
  rw [List.map_map]
  have : (String.mk ∘ String.data) = id := by
    funext s
    cases s
    rfl
  simp [this]

/-- C6: saving a duplicate-free collection of comma-free identifiers and
loading it back into an empty in-memory set reproduces exactly the saved
identifiers, provided the collection is not the singleton holding the
empty identifier (that singleton serializes to the empty string, which
loads back as the empty set). The empty collection round-trips to
itself. -/
theorem C6_roundTrip (ids : List String) (hnd : ids.Nodup)
    (hcf : ∀ s ∈ ids, ',' ∉ s.data) (hne : ids ≠ [""]) :
    loadIntoSet [] (some (writeToLocal ids)) = ids := by
  cases hids : ids with
  | nil => simp [loadIntoSet, readFromLocal, writeToLocal, joinComma]
  | cons x t =>
    rw [← hids]
    have hido : ids ≠ [] := by simp [hids]
    have hwne : writeToLocal ids ≠ "" := writeToLocal_ne_empty ids hido hne
    have hread : readFromLocal (some (writeToLocal ids)) = ids := by
      have hsplit : splitComma (joinComma (ids.map String.data)) = ids.map String.data := by
        apply splitComma_joinComma
        · intro w hw
          obtain ⟨s, hs, rfl⟩ := List.mem_map.mp hw
          exact hcf s hs
        · simp [hids]
      have hdata : (writeToLocal ids).data = joinComma (ids.map String.data) := rfl
      simp only [readFromLocal, if_neg hwne]
      rw [hdata, hsplit, mk_data_map]
    rw [loadIntoSet, hread]
    simpa using foldl_setAdd_nodup ids [] (by simpa using hnd)

/-- C6 witness: a concrete two-identifier set round-trips unchanged. -/
theorem C6_roundTrip_witness :
    loadIntoSet [] (some (writeToLocal ["ab", "cd"])) = ["ab", "cd"] :=
  C6_roundTrip ["ab", "cd"] (by decide) (by decide) (by decide)

/-- C6 counterexample: the singleton set holding the empty identifier is
made of comma-free identifiers, yet it round-trips to the empty set, so
the round-trip property fails on it as stated. -/
theorem C6_counterexample :
    loadIntoSet [] (some (writeToLocal [""])) = [] ∧
      ([""] : List String) ≠ [] ∧ ',' ∉ ("" : String).data := by
  refine ⟨by decide, by decide, by decide⟩

theorem mem_foldl_setAdd (l acc : List String) (x : String) :
    x ∈ l.foldl setAdd acc ↔ x ∈ acc ∨ x ∈ l := by
  induction l generalizing acc with
  | nil => simp
  | cons y t ih =>
    rw [List.foldl_cons, ih, mem_setAdd]
    simp [or_assoc]

theorem mem_disableFilter (selfId : String) (excludeType : List String)
    (list : List Ext) (item : Ext) :
    item ∈ disableFilter selfId excludeType list ↔
      item ∈ list ∧ item.id ≠ selfId ∧ item.type ∉ excludeType ∧
        item.enabled = true := by
  simp [disableFilter, List.mem_filter, and_assoc]

theorem runDisableCallbacks_append (tailId : Option String)
    (a b : List String) (st : MgrState) :
    runDisableCallbacks tailId (a ++ b) st
      = runDisableCallbacks tailId b (runDisableCallbacks tailId a st) := by
  induction a generalizing st with
  | nil => rfl
  | cons x t ih =>
    simp only [List.cons_append, runDisableCallbacks]
    exact ih _

theorem runDisableCallbacks_no_tail (tailId : Option String)
    (ids : List String) (st : MgrState) (h : ∀ id ∈ ids, some id ≠ tailId) :
    runDisableCallbacks tailId ids st
      = { st with eidDisabledSet := ids.foldl setAdd st.eidDisabledSet } := by
  induction ids generalizing st with
  | nil => rfl
  | cons x t ih =>
    have hx : some x ≠ tailId := h x (List.mem_cons_self x t)
    simp only [runDisableCallbacks, if_neg hx]
    rw [ih _ (fun id hm => h id (List.mem_cons_of_mem x hm))]
    simp [List.foldl_cons]

theorem runDisableCallbacks_tail_step (t : String) (st : MgrState) :
    runDisableCallbacks (some t) [t] st
      = { eidDisabledSet := setAdd st.eidDisabledSet t
          storage := some (writeToLocal (setAdd st.eidDisabledSet t))
          h1Label := getMessage "one_key_restore" } := by
  simp [runDisableCallbacks]

theorem tailIdOf_concat (fs : List Ext) (lastF : Ext) :
    tailIdOf (fs ++ [lastF]) = some lastF.id := by
  simp [tailIdOf, List.getLast?_concat]

/-- C1: with a nonempty filtered list and platform-unique identifiers,
oneKeyDisable issues disable requests exactly for the records that are
enabled, are not the hosting extension and are not of an excluded type,
in filtered-list order; each completion callback adds its identifier to
the disabled-by-us set, and (callbacks firing in issuance order) the
callback of the last filtered identifier persists the set and flips the
header label to the one_key_restore message. -/
theorem C1_oneKeyDisable (selfId : String) (excludeType : List String)
    (list : List Ext) (st : MgrState)
    (hnd : (list.map Ext.id).Nodup)
    (hne : disableFilter selfId excludeType list ≠ []) :
    (oneKeyDisable selfId excludeType list st).1
      = (disableFilter selfId excludeType list).map (fun item => (item.id, false)) ∧
    (∀ p : String × Bool, p ∈ (oneKeyDisable selfId excludeType list st).1 ↔
      ∃ item ∈ list, item.id ≠ selfId ∧ item.type ∉ excludeType ∧
        item.enabled = true ∧ p = (item.id, false)) ∧
    (∀ x, x ∈ ((oneKeyDisable selfId excludeType list st).2).eidDisabledSet ↔
      x ∈ st.eidDisabledSet ∨
        ∃ item ∈ list, item.id ≠ selfId ∧ item.type ∉ excludeType ∧
          item.enabled = true ∧ x = item.id) ∧
    ((oneKeyDisable selfId excludeType list st).2).storage
      = some (writeToLocal
          ((oneKeyDisable selfId excludeType list st).2).eidDisabledSet) ∧
    ((oneKeyDisable selfId excludeType list st).2).h1Label
      = getMessage "one_key_restore" := by
  set filtered := disableFilter selfId excludeType list with hfiltered
  obtain ⟨fs, lastF, hsplit⟩ : ∃ fs lastF, filtered = fs ++ [lastF] := by
    rcases List.eq_nil_or_concat filtered with hnil | ⟨L, b, hcat⟩
    · exact absurd hnil hne
    · exact ⟨L, b, by simpa [List.concat_eq_append] using hcat⟩
  have hndf : (filtered.map Ext.id).Nodup :=
    List.Nodup.sublist (List.Sublist.map Ext.id (List.filter_sublist list)) hnd
  have hids : filtered.map Ext.id = fs.map Ext.id ++ [lastF.id] := by
    rw [hsplit]; simp
  have hnotin : lastF.id ∉ fs.map Ext.id := by
    rw [hids] at hndf
    have hdisj := (List.nodup_append.mp hndf).2.2
    intro hmem
    exact hdisj hmem (List.mem_cons_self lastF.id [])
  have htail : tailIdOf filtered = some lastF.id := by
    rw [hsplit]; exact tailIdOf_concat fs lastF
  have hrun : runDisableCallbacks (tailIdOf filtered) (filtered.map Ext.id) st
      = { eidDisabledSet := (filtered.map Ext.id).foldl setAdd st.eidDisabledSet
          storage := some (writeToLocal
            ((filtered.map Ext.id).foldl setAdd st.eidDisabledSet))
          h1Label := getMessage "one_key_restore" } := by
    rw [htail, hids, runDisableCallbacks_append]
    rw [runDisableCallbacks_no_tail (some lastF.id) (fs.map Ext.id) st
      (fun id hm hcontra => hnotin (Option.some.inj hcontra ▸ hm))]
    rw [runDisableCallbacks_tail_step]
    simp [List.foldl_append]
  have hmemid : ∀ x, x ∈ filtered.map Ext.id ↔
      ∃ item ∈ list, item.id ≠ selfId ∧ item.type ∉ excludeType ∧
        item.enabled = true ∧ x = item.id := by
    intro x
    rw [List.mem_map]
    constructor
    · rintro ⟨item, hitem, rfl⟩
      obtain ⟨hl, h1, h2, h3⟩ := (mem_disableFilter selfId excludeType list item).mp hitem
      exact ⟨item, hl, h1, h2, h3, rfl⟩
    · rintro ⟨item, hl, h1, h2, h3, rfl⟩
      exact ⟨item, (mem_disableFilter selfId excludeType list item).mpr ⟨hl, h1, h2, h3⟩, rfl⟩
  refine ⟨rfl, ?_, ?_, ?_, ?_⟩
  · intro p
    show p ∈ filtered.map (fun item => (item.id, false)) ↔ _
    rw [List.mem_map]
    constructor
    · rintro ⟨item, hitem, rfl⟩
      obtain ⟨hl, h1, h2, h3⟩ := (mem_disableFilter selfId excludeType list item).mp hitem
      exact ⟨item, hl, h1, h2, h3, rfl⟩
    · rintro ⟨item, hl, h1, h2, h3, rfl⟩
      exact ⟨item, (mem_disableFilter selfId excludeType list item).mpr ⟨hl, h1, h2, h3⟩, rfl⟩
  · intro x
    show x ∈ (runDisableCallbacks (tailIdOf filtered) (filtered.map Ext.id) st).eidDisabledSet ↔ _
    rw [hrun]
    simp only [mem_foldl_setAdd]
    rw [hmemid x]
  · show (runDisableCallbacks (tailIdOf filtered) (filtered.map Ext.id) st).storage
      = some (writeToLocal
        (runDisableCallbacks (tailIdOf filtered) (filtered.map Ext.id) st).eidDisabledSet)
    rw [hrun]
  · show (runDisableCallbacks (tailIdOf filtered) (filtered.map Ext.id) st).h1Label = _
    rw [hrun]

/-- C1 witness: the oneKeyDisable contract instantiated on a concrete
two-record list with one enabled record. -/
theorem C1_oneKeyDisable_witness :
    (oneKeyDisable "self" ["theme"] [demoExtA, demoExtB] demoState).1
      = (disableFilter "self" ["theme"] [demoExtA, demoExtB]).map
          (fun item => (item.id, false)) ∧
    (∀ p : String × Bool,
      p ∈ (oneKeyDisable "self" ["theme"] [demoExtA, demoExtB] demoState).1 ↔
      ∃ item ∈ [demoExtA, demoExtB], item.id ≠ "self" ∧
        item.type ∉ ["theme"] ∧ item.enabled = true ∧ p = (item.id, false)) ∧
    (∀ x, x ∈ ((oneKeyDisable "self" ["theme"] [demoExtA, demoExtB]
        demoState).2).eidDisabledSet ↔
      x ∈ demoState.eidDisabledSet ∨
        ∃ item ∈ [demoExtA, demoExtB], item.id ≠ "self" ∧
          item.type ∉ ["theme"] ∧ item.enabled = true ∧ x = item.id) ∧
    ((oneKeyDisable "self" ["theme"] [demoExtA, demoExtB] demoState).2).storage
      = some (writeToLocal ((oneKeyDisable "self" ["theme"]
          [demoExtA, demoExtB] demoState).2).eidDisabledSet) ∧
    ((oneKeyDisable "self" ["theme"] [demoExtA, demoExtB] demoState).2).h1Label
      = getMessage "one_key_restore" :=
  C1_oneKeyDisable "self" ["theme"] [demoExtA, demoExtB] demoState
    (by decide) (by decide)

theorem mem_restoreCandidates (selfId : String) (excludeType : List String)
    (list : List Ext) (id : String) :
    id ∈ restoreCandidates selfId excludeType list ↔
      ∃ item ∈ list, item.id = id ∧ item.id ≠ selfId ∧
        item.type ∉ excludeType ∧ item.enabled = false := by
  simp only [restoreCandidates, List.mem_filterMap]
  constructor
  · rintro ⟨item, hitem, hsome⟩
    by_cases hb : (!(item.id == selfId) && !(excludeType.contains item.type)
        && !item.enabled) = true
    · rw [if_pos hb] at hsome
      have hid : item.id = id := Option.some.inj hsome
      simp only [Bool.and_eq_true, Bool.not_eq_true'] at hb
      refine ⟨item, hitem, hid, ?_, ?_, hb.2⟩
      · simpa using hb.1.1
      · simpa using hb.1.2
    · rw [if_neg hb] at hsome
      exact absurd hsome (by simp)
  · rintro ⟨item, hitem, hid, h1, h2, h3⟩
    refine ⟨item, hitem, ?_⟩
    rw [if_pos]
    · exact congrArg some hid
    · simp [h1, h2, h3]

/-- C2: oneKeyRestore issues only enable requests; an enable request for
an identifier is issued exactly when it is in the disabled-by-us set and
some fetched record with that identifier is currently disabled, is not
the hosting extension and is not of an excluded type; afterwards the
disabled-by-us set is empty, the empty set (serialized as the empty
string) is persisted, and the header label becomes the one_key_disable
message, regardless of how many requests were issued. -/
theorem C2_oneKeyRestore (selfId : String) (excludeType : List String)
    (list : List Ext) (st : MgrState) :
    (∀ p ∈ (oneKeyRestore selfId excludeType list st).1, p.2 = true) ∧
    (∀ id, (id, true) ∈ (oneKeyRestore selfId excludeType list st).1 ↔
      id ∈ st.eidDisabledSet ∧
        ∃ item ∈ list, item.id = id ∧ item.id ≠ selfId ∧
          item.type ∉ excludeType ∧ item.enabled = false) ∧
    ((oneKeyRestore selfId excludeType list st).2).eidDisabledSet = [] ∧
    ((oneKeyRestore selfId excludeType list st).2).storage
      = some (writeToLocal []) ∧
    writeToLocal [] = "" ∧
    ((oneKeyRestore selfId excludeType list st).2).h1Label
      = getMessage "one_key_disable" := by
  refine ⟨?_, ?_, rfl, rfl, rfl, rfl⟩
  · intro p hp
    show p.2 = true
    obtain ⟨id, _, rfl⟩ := List.mem_map.mp hp
    rfl
  · intro id
    show (id, true) ∈ (st.eidDisabledSet.filter fun i =>
        (restoreCandidates selfId excludeType list).contains i).map
          (fun i => (i, true)) ↔ _
    rw [List.mem_map]
    constructor
    · rintro ⟨i, hi, heq⟩
      have hid : i = id := congrArg Prod.fst heq
      subst hid
      obtain ⟨hmem, hcand⟩ := List.mem_filter.mp hi
      have : i ∈ restoreCandidates selfId excludeType list := by simpa using hcand
      exact ⟨hmem, (mem_restoreCandidates selfId excludeType list i).mp this⟩
    · rintro ⟨hmem, hex⟩
      refine ⟨id, List.mem_filter.mpr ⟨hmem, ?_⟩, rfl⟩
      simpa using (mem_restoreCandidates selfId excludeType list id).mpr hex

/-- C2 witness: the oneKeyRestore contract at a concrete state whose set
holds one identifier still disabled on the platform and one stale
identifier. -/
theorem C2_oneKeyRestore_witness :
    (∀ p ∈ (oneKeyRestore "self" ["theme"] [demoExtA, demoExtB] demoStateFull).1,
      p.2 = true) ∧
    (∀ id, (id, true) ∈ (oneKeyRestore "self" ["theme"] [demoExtA, demoExtB]
        demoStateFull).1 ↔
      id ∈ demoStateFull.eidDisabledSet ∧
        ∃ item ∈ [demoExtA, demoExtB], item.id = id ∧ item.id ≠ "self" ∧
          item.type ∉ ["theme"] ∧ item.enabled = false) ∧
    ((oneKeyRestore "self" ["theme"] [demoExtA, demoExtB]
        demoStateFull).2).eidDisabledSet = [] ∧
    ((oneKeyRestore "self" ["theme"] [demoExtA, demoExtB]
        demoStateFull).2).storage = some (writeToLocal []) ∧
    writeToLocal [] = "" ∧
    ((oneKeyRestore "self" ["theme"] [demoExtA, demoExtB]
        demoStateFull).2).h1Label = getMessage "one_key_disable" :=
  C2_oneKeyRestore "self" ["theme"] [demoExtA, demoExtB] demoStateFull

/-- C5: neither the hosting extension nor any record of an excluded type
appears among the rendered records, among the oneKeyDisable candidates,
or among the oneKeyRestore candidate identifiers. -/
theorem C5_exclusion (lc : String → String → Ordering) (selfId : String)
    (excludeType : List String) (partition : Bool) (list : List Ext) :
    (∀ item ∈ renderedRecords lc selfId excludeType partition list,
      item.id ≠ selfId ∧ item.type ∉ excludeType) ∧
    (∀ item ∈ disableFilter selfId excludeType list,
      item.id ≠ selfId ∧ item.type ∉ excludeType) ∧
    selfId ∉ restoreCandidates selfId excludeType list ∧
    (∀ id ∈ restoreCandidates selfId excludeType list,
      ∃ item ∈ list, item.id = id ∧ item.id ≠ selfId ∧
        item.type ∉ excludeType) := by
  refine ⟨?_, ?_, ?_, ?_⟩
  · intro item hitem
    obtain ⟨_, hkeep⟩ := List.mem_filter.mp hitem
    simp only [renderKeep, Bool.and_eq_true, Bool.not_eq_true'] at hkeep
    exact ⟨by simpa using hkeep.1, by simpa using hkeep.2⟩
  · intro item hitem
    obtain ⟨_, h1, h2, _⟩ := (mem_disableFilter selfId excludeType list item).mp hitem
    exact ⟨h1, h2⟩
  · intro hmem
    obtain ⟨item, _, hid, hne, _, _⟩ :=
      (mem_restoreCandidates selfId excludeType list selfId).mp hmem
    exact hne hid
  · intro id hmem
    obtain ⟨item, hitem, hid, hne, hty, _⟩ :=
      (mem_restoreCandidates selfId excludeType list id).mp hmem
    exact ⟨item, hitem, hid, hne, hty⟩

/-- C5 witness: the exclusion invariant at a concrete comparator, list
and exclude set. -/
theorem C5_exclusion_witness :
    (∀ item ∈ renderedRecords lcConst "self" ["theme"] true [demoExtA, demoExtB],
      item.id ≠ "self" ∧ item.type ∉ ["theme"]) ∧
    (∀ item ∈ disableFilter "self" ["theme"] [demoExtA, demoExtB],
      item.id ≠ "self" ∧ item.type ∉ ["theme"]) ∧
    "self" ∉ restoreCandidates "self" ["theme"] [demoExtA, demoExtB] ∧
    (∀ id ∈ restoreCandidates "self" ["theme"] [demoExtA, demoExtB],
      ∃ item ∈ [demoExtA, demoExtB], item.id = id ∧ item.id ≠ "self" ∧
        item.type ∉ ["theme"]) :=
  C5_exclusion lcConst "self" ["theme"] true [demoExtA, demoExtB]

/-- C7: when no fetched record passes the oneKeyDisable filter (after
excluding the hosting extension and excluded types, nothing is enabled),
the operation issues no request and returns the state unchanged: no
persistence write, no change to the disabled-by-us set, no change to the
header label. -/
theorem C7_disable_noop (selfId : String) (excludeType : List String)
    (list : List Ext) (st : MgrState)
    (h : ∀ item ∈ list, item.id ≠ selfId → item.type ∉ excludeType →
      item.enabled = false) :
    oneKeyDisable selfId excludeType list st = ([], st) := by
  have hfe : disableFilter selfId excludeType list = [] := by
    rw [disableFilter, List.filter_eq_nil_iff]
    intro item hitem
    by_cases h1 : item.id = selfId
    · simp [h1]
    · by_cases h2 : item.type ∈ excludeType
      · simp [h2]
      · simp [h1, h2, h item hitem h1 h2]
  show (_, runDisableCallbacks (tailIdOf (disableFilter selfId excludeType list))
      ((disableFilter selfId excludeType list).map fun item => item.id) st) = ([], st)
  rw [hfe]
  rfl

/-- C7 witness: on a list whose only record is disabled, oneKeyDisable
is a no-op. -/
theorem C7_disable_noop_witness :
    oneKeyDisable "self" ["theme"] [demoExtB] demoState = ([], demoState) :=
  C7_disable_noop "self" ["theme"] [demoExtB] demoState (by decide)

/-- C8: on header activation exactly one bulk operation is dispatched:
oneKeyRestore exactly when the disabled-by-us set is nonempty, and
oneKeyDisable exactly when it is empty. -/
theorem C8_headerActivate (st : MgrState) :
    (headerActivate st = BulkOp.restore ↔ st.eidDisabledSet ≠ []) ∧
    (headerActivate st = BulkOp.disable ↔ st.eidDisabledSet = []) := by
  by_cases h : st.eidDisabledSet = [] <;>
    simp [headerActivate, h, List.length_eq_zero]

/-- C8 witness: the header dispatch at a concrete nonempty-set state and
a concrete empty-set state. -/
theorem C8_headerActivate_witness :
    ((headerActivate demoStateFull = BulkOp.restore ↔
        demoStateFull.eidDisabledSet ≠ []) ∧
      (headerActivate demoStateFull = BulkOp.disable ↔
        demoStateFull.eidDisabledSet = [])) ∧
    ((headerActivate demoState = BulkOp.restore ↔
        demoState.eidDisabledSet ≠ []) ∧
      (headerActivate demoState = BulkOp.disable ↔
        demoState.eidDisabledSet = [])) :=
  ⟨C8_headerActivate demoStateFull, C8_headerActivate demoState⟩

theorem foldl_iconStep_big (maxSz : Nat) (rest : List Icon) (cur : Icon)
    (h : maxSz ≤ cur.size) : rest.foldl (iconStep maxSz) cur = cur := by
  induction rest generalizing cur with
  | nil => rfl
  | cons ic t ih =>
    have hstep : iconStep maxSz cur ic = cur := by
      have hcond : ¬(cur.size < ic.size ∧ ic.size < maxSz) := by omega
      simp [iconStep, hcond]
    rw [List.foldl_cons, hstep]
    exact ih cur h

theorem foldl_iconStep_small (maxSz : Nat) (rest : List Icon) (cur : Icon)
    (h : cur.size < maxSz) :
    rest.foldl (iconStep maxSz) cur ∈ cur :: rest ∧
    (rest.foldl (iconStep maxSz) cur).size < maxSz ∧
    cur.size ≤ (rest.foldl (iconStep maxSz) cur).size ∧
    (∀ ic ∈ rest, ic.size < maxSz →
      ic.size ≤ (rest.foldl (iconStep maxSz) cur).size) := by
  induction rest generalizing cur with
  | nil => exact ⟨List.mem_cons_self cur [], h, Nat.le_refl _, by simp⟩
  | cons ic t ih =>
    by_cases hcond : cur.size < ic.size ∧ ic.size < maxSz
    · have hstep : iconStep maxSz cur ic = ic := by simp [iconStep, hcond.1, hcond.2]
      have hrec := ih ic hcond.2
      rw [List.foldl_cons, hstep]
      refine ⟨?_, hrec.2.1, ?_, ?_⟩
      · rcases List.mem_cons.mp hrec.1 with heq | hmem
        · rw [heq]
          exact List.mem_cons_of_mem cur (List.mem_cons_self ic t)
        · exact List.mem_cons_of_mem cur (List.mem_cons_of_mem ic hmem)
      · exact Nat.le_trans (Nat.le_of_lt hcond.1) hrec.2.2.1
      · intro ic2 hic2 hsz
        rcases List.mem_cons.mp hic2 with heq | hmem
        · rw [heq]
          exact hrec.2.2.1
        · exact hrec.2.2.2 ic2 hmem hsz
    · have hstep : iconStep maxSz cur ic = cur := by
        simp only [iconStep]
        rw [if_neg]
        simpa using hcond
      have hrec := ih cur h
      rw [List.foldl_cons, hstep]
      refine ⟨?_, hrec.2.1, hrec.2.2.1, ?_⟩
      · rcases List.mem_cons.mp hrec.1 with heq | hmem
        · rw [heq]
          exact List.mem_cons_self cur (ic :: t)
        · exact List.mem_cons_of_mem cur (List.mem_cons_of_mem ic hmem)
      · intro ic2 hic2 hsz
        rcases List.mem_cons.mp hic2 with heq | hmem
        · have hle : ic2.size ≤ cur.size := by
            rw [heq] at hsz ⊢
            omega
          exact Nat.le_trans hle hrec.2.2.1
        · exact hrec.2.2.2 ic2 hmem hsz

/-- C3 counterexample: on a record whose first icon is 128 pixels while
a 32 pixel icon is also available, the chosen icon is the 128 pixel one,
which is not an icon of size strictly below 64, so the selection is not
the largest icon strictly below 64 pixels. -/
theorem C3_counterexample :
    chooseIcon 64 extBigFirst = iconBig ∧ iconBig.size = 128 ∧
      ¬iconBig.size < 64 ∧ iconSmall ∈ extBigFirst.icons ∧
      iconSmall.size < 64 := by
  refine ⟨by decide, by decide, by decide, by decide, by decide⟩

/-- C3 amended: with no icons, the default is the generic platform icon
URL at size 32; with icons, the scan starts from the first icon, so when
the first icon is 64 pixels or more it is kept unconditionally, and only
when the first icon is strictly below 64 pixels is the chosen icon one
of largest size among the icons strictly below 64 pixels. -/
theorem C3_amended (item : Ext) :
    (item.icons = [] → chooseIcon 64 item = defaultIconInfo item) ∧
    (∀ firstIcon restIcons, item.icons = firstIcon :: restIcons →
      64 ≤ firstIcon.size → chooseIcon 64 item = firstIcon) ∧
    (∀ firstIcon restIcons, item.icons = firstIcon :: restIcons →
      firstIcon.size < 64 →
      chooseIcon 64 item ∈ item.icons ∧ (chooseIcon 64 item).size < 64 ∧
        ∀ ic ∈ item.icons, ic.size < 64 → ic.size ≤ (chooseIcon 64 item).size) := by
  refine ⟨?_, ?_, ?_⟩
  · intro h
    simp [chooseIcon, h]
  · intro f r hicons hbig
    have : chooseIcon 64 item = r.foldl (iconStep 64) f := by
      simp [chooseIcon, hicons]
    rw [this]
    exact foldl_iconStep_big 64 r f hbig
  · intro f r hicons hsmall
    have hch : chooseIcon 64 item = r.foldl (iconStep 64) f := by
      simp [chooseIcon, hicons]
    have hspec := foldl_iconStep_small 64 r f hsmall
    refine ⟨?_, ?_, ?_⟩
    · rw [hch, hicons]
      exact hspec.1
    · rw [hch]
      exact hspec.2.1
    · intro ic hic hsz
      rw [hch]
      rw [hicons] at hic
      rcases List.mem_cons.mp hic with heq | hmem
      · exact heq ▸ hspec.2.2.1
      · exact hspec.2.2.2 ic hmem hsz

/-- C3 witness: the three branches of the amended icon selection at
concrete records. -/
theorem C3_amended_witness :
    chooseIcon 64 demoExtA = defaultIconInfo demoExtA ∧
    chooseIcon 64 extBigFirst = iconBig ∧
    (chooseIcon 64 extSmallFirst ∈ extSmallFirst.icons ∧
      (chooseIcon 64 extSmallFirst).size < 64 ∧
      ∀ ic ∈ extSmallFirst.icons, ic.size < 64 →
        ic.size ≤ (chooseIcon 64 extSmallFirst).size) :=
  ⟨(C3_amended demoExtA).1 rfl,
   (C3_amended extBigFirst).2.1 iconBig [iconSmall] rfl (by decide),
   (C3_amended extSmallFirst).2.2 { size := 16, url := "s16" }
     [{ size := 48, url := "s48" }, { size := 128, url := "s128" }] rfl (by decide)⟩

theorem jsSortLE_true (lc : String → String → Ordering) (a b : Ext) :
    jsSortLE lc a b = true ↔ lc a.name b.name ≠ Ordering.gt := by
  simp only [jsSortLE, Bool.not_eq_true']
  cases lc a.name b.name <;> decide

/-- C4: for every name comparator that is transitive and total on the
non-gt relation (as the platform collation is), the non-partitioned
sorter output is a permutation of the input that is nondecreasing under
the comparator, and the partitioned output is a sorted permutation of
the enabled records followed by a sorted permutation of the disabled
records. -/
theorem C4_sortByASCII (lc : String → String → Ordering)
    (htrans : ∀ a b c : String, lc a b ≠ Ordering.gt → lc b c ≠ Ordering.gt →
      lc a c ≠ Ordering.gt)
    (htotal : ∀ a b : String, lc a b = Ordering.gt → lc b a ≠ Ordering.gt)
    (list : List Ext) :
    ((sortByASCII lc false list).Perm list ∧
      NondecreasingBy lc (sortByASCII lc false list)) ∧
    (∃ e d, sortByASCII lc true list = e ++ d ∧
      e.Perm (list.filter fun item => item.enabled) ∧
      d.Perm (list.filter fun item => !item.enabled) ∧
      NondecreasingBy lc e ∧ NondecreasingBy lc d ∧
      (∀ x ∈ e, x.enabled = true) ∧ (∀ x ∈ d, x.enabled = false)) := by
  have htrans2 : ∀ a b c : Ext, jsSortLE lc a b = true → jsSortLE lc b c = true →
      jsSortLE lc a c = true := by
    intro a b c hab hbc
    rw [jsSortLE_true] at hab hbc ⊢
    exact htrans a.name b.name c.name hab hbc
  have htotal2 : ∀ a b : Ext, (jsSortLE lc a b || jsSortLE lc b a) = true := by
    intro a b
    rw [Bool.or_eq_true, jsSortLE_true, jsSortLE_true]
    by_cases hgt : lc a.name b.name = Ordering.gt
    · exact Or.inr (htotal a.name b.name hgt)
    · exact Or.inl hgt
  have hsorted : ∀ l : List Ext, NondecreasingBy lc (l.mergeSort (jsSortLE lc)) := by
    intro l
    exact (List.sorted_mergeSort htrans2 htotal2 l).imp
      (fun h => (jsSortLE_true lc _ _).mp h)
  refine ⟨⟨?_, ?_⟩, ?_⟩
  · show (list.mergeSort (jsSortLE lc)).Perm list
    exact List.mergeSort_perm list (jsSortLE lc)
  · exact hsorted list
  · have heq : sortByASCII lc true list
        = (list.filter fun item => item.enabled).mergeSort (jsSortLE lc)
          ++ (list.filter fun item => !item.enabled).mergeSort (jsSortLE lc) := by
      simp [sortByASCII]
    refine ⟨(list.filter fun item => item.enabled).mergeSort (jsSortLE lc),
      (list.filter fun item => !item.enabled).mergeSort (jsSortLE lc),
      heq, List.mergeSort_perm _ _, List.mergeSort_perm _ _,
      hsorted _, hsorted _, ?_, ?_⟩
    · intro x hx
      have hmem : x ∈ list.filter fun item => item.enabled :=
        (List.mergeSort_perm _ _).mem_iff.mp hx
      exact (List.mem_filter.mp hmem).2
    · intro x hx
      have hmem : x ∈ list.filter fun item => !item.enabled :=
        (List.mergeSort_perm _ _).mem_iff.mp hx
      simpa using (List.mem_filter.mp hmem).2

/-- C4 witness: the sorter contract instantiated at a concrete total
comparator and a concrete two-record list. -/
theorem C4_sortByASCII_witness :
    ((sortByASCII lcConst false [demoExtA, demoExtB]).Perm [demoExtA, demoExtB] ∧
      NondecreasingBy lcConst (sortByASCII lcConst false [demoExtA, demoExtB])) ∧
    (∃ e d, sortByASCII lcConst true [demoExtA, demoExtB] = e ++ d ∧
      e.Perm ([demoExtA, demoExtB].filter fun item => item.enabled) ∧
      d.Perm ([demoExtA, demoExtB].filter fun item => !item.enabled) ∧
      NondecreasingBy lcConst e ∧ NondecreasingBy lcConst d ∧
      (∀ x ∈ e, x.enabled = true) ∧ (∀ x ∈ d, x.enabled = false)) :=
  C4_sortByASCII lcConst (fun _ _ _ _ _ => by simp [lcConst])
    (fun _ _ h => by simp [lcConst] at h) [demoExtA, demoExtB]

/-- C9: over the focusable sequence of length n (header then the list
items), a forward move from position i focuses position (i + 1) mod n
and a backward move focuses position (i - 1) mod n (written with the
modulus added first); Tab and ArrowDown are forward moves, Shift-Tab and
ArrowUp backward ones. In particular forward from the last position
wraps to the header and backward from the header wraps to the last
position. -/
theorem C9_focusNavigation (n i : Nat) (hi : i < n) :
    focusTarget n (i : Int) 1 = some (((i + 1) % n : Nat) : Int) ∧
    focusTarget n (i : Int) (-1) = some (((i + n - 1) % n : Nat) : Int) ∧
    keydownOffset "Tab" false = some 1 ∧
    keydownOffset "ArrowDown" false = some 1 ∧
    keydownOffset "ArrowDown" true = some 1 ∧
    keydownOffset "Tab" true = some (-1) ∧
    keydownOffset "ArrowUp" false = some (-1) ∧
    keydownOffset "ArrowUp" true = some (-1) := by
  refine ⟨?_, ?_, by decide, by decide, by decide, by decide, by decide, by decide⟩
  · show some (((i : Int) + 1) % (n : Int)) = _
    have hc : (((i + 1) % n : Nat) : Int) = ((i : Int) + 1) % (n : Int) := by
      push_cast
      ring
    rw [hc]
  · show some ((max (i : Int) 0 + (-1) + (n : Int)) % (n : Int)) = _
    have hmax : max (i : Int) 0 = (i : Int) := max_eq_left (Int.ofNat_nonneg i)
    have hc : (((i + n - 1) % n : Nat) : Int)
        = ((i : Int) + (-1) + (n : Int)) % (n : Int) := by
      have h1 : ((i + n - 1 : Nat) : Int) = (i : Int) + (-1) + (n : Int) := by omega
      rw [Int.natCast_mod, h1]
    rw [hmax, hc]

/-- C9 witness: the wrap behavior at the last position of a three
element sequence. -/
theorem C9_focusNavigation_witness :
    focusTarget 3 ((2 : Nat) : Int) 1 = some (((2 + 1) % 3 : Nat) : Int) ∧
    focusTarget 3 ((2 : Nat) : Int) (-1) = some (((2 + 3 - 1) % 3 : Nat) : Int) ∧
    keydownOffset "Tab" false = some 1 ∧
    keydownOffset "ArrowDown" false = some 1 ∧
    keydownOffset "ArrowDown" true = some 1 ∧
    keydownOffset "Tab" true = some (-1) ∧
    keydownOffset "ArrowUp" false = some (-1) ∧
    keydownOffset "ArrowUp" true = some (-1) :=
  C9_focusNavigation 3 2 (by decide)

/-- C10: the rendered span text and the image alternative text are the
short name exactly when the short name is present and nonempty; a
missing short name and an empty short name both fall back to the full
name. -/
theorem C10_label (item : Ext) :
    (∀ s, item.shortName = some s → s ≠ "" →
      (renderExtensionState 64 item).spanText = s ∧
        (renderExtensionState 64 item).imgAlt = s) ∧
    (item.shortName = none →
      (renderExtensionState 64 item).spanText = item.name ∧
        (renderExtensionState 64 item).imgAlt = item.name) ∧
    (item.shortName = some "" →
      (renderExtensionState 64 item).spanText = item.name ∧
        (renderExtensionState 64 item).imgAlt = item.name) := by
  refine ⟨?_, ?_, ?_⟩
  · intro s hs hne
    constructor <;> simp [renderExtensionState, extLabel, hs, hne]
  · intro h
    constructor <;> simp [renderExtensionState, extLabel, h]
  · intro h
    constructor <;> simp [renderExtensionState, extLabel, h]

/-- C10 witness: the three label cases at concrete records. -/
theorem C10_label_witness :
    ((renderExtensionState 64 demoExtB).spanText = "B" ∧
      (renderExtensionState 64 demoExtB).imgAlt = "B") ∧
    ((renderExtensionState 64 demoExtA).spanText = demoExtA.name ∧
      (renderExtensionState 64 demoExtA).imgAlt = demoExtA.name) ∧
    ((renderExtensionState 64 demoExtC).spanText = demoExtC.name ∧
      (renderExtensionState 64 demoExtC).imgAlt = demoExtC.name) :=
  ⟨(C10_label demoExtB).1 "B" rfl (by decide),
   (C10_label demoExtA).2.1 rfl,
   (C10_label demoExtC).2.2 rfl⟩

end ExtMgr
